import Mathlib

set_option maxRecDepth 1000000

/-
Verification of the MiniBlockChain core (a Tendermint-style two-phase BFT
blockchain written in Python) against its natural-language specification.

The development shallowly embeds the Python source:

* Python dicts are insertion-ordered association lists (`dictGet`/`dictSet`
  mirror `d[k]`/`d.get`/`d[k] = v` semantics: update in place, append new keys).
* `json.dumps(..., sort_keys=True, separators=(',', ':'))` is embedded as
  `encJson` below, including Python's `ensure_ascii` string escaping rules
  (src/crypto/hashing.py, src/crypto/signature.py).
* SHA-256 (src/crypto/hashing.py `hash_dict_hex`) is modelled as an injective
  function of the canonical encoding: the model returns the canonical encoding
  itself.  All claims use hashes only through equality and distinctness, which
  is exactly what collision resistance provides.
* Ed25519 (src/crypto/keys.py) is modelled symbolically: a signature is the
  pair (public key, signed bytes); verification recomputes the signing bytes
  and compares.  This is the standard unforgeability model: a signature
  verifies for a key and a byte string iff it was produced by that key over
  exactly those bytes.  `get_address` (base64 of the 32-byte public key) is a
  total injective encoding per the spec; the model uses the identity coding,
  so an address is its public key and `base64.b64decode(address)` always
  succeeds.
* Wall-clock reads (`int(time.time())`) become explicit timestamp arguments.
* The logger is pure output and is dropped.
-/

/-! ## Association lists with Python dict semantics -/

/-- Python `d.get(k)`: first binding of `k`, if any (keys are unique by
construction of `dictSet`). -/
def dictGet {α β : Type} [DecidableEq α] : List (α × β) → α → Option β
  | [], _ => none
  | (k, v) :: rest, key => if k = key then some v else dictGet rest key

/-- Python `d[k] = v`: replace in place if the key exists (preserving
insertion order), else append at the end. -/
def dictSet {α β : Type} [DecidableEq α] : List (α × β) → α → β → List (α × β)
  | [], key, val => [(key, val)]
  | (k, v) :: rest, key, val =>
    if k = key then (key, val) :: rest else (k, v) :: dictSet rest key val

/-! ## Canonical JSON encoding (src/crypto/hashing.py, json.dumps with
sort_keys=True and separators=(',', ':'), default ensure_ascii=True) -/

/-- Lowercase hexadecimal digit, as produced by Python's `'\u{0:04x}'.format`. -/
def hexDig (n : Nat) : Char :=
  if n < 10 then Char.ofNat (48 + n) else Char.ofNat (87 + n)

/-- Four lowercase hex digits of `n < 0x10000`. -/
def hex4 (n : Nat) : List Char :=
  [hexDig (n / 4096 % 16), hexDig (n / 256 % 16), hexDig (n / 16 % 16), hexDig (n % 16)]

/-- Python json `ensure_ascii` escaping of one character: `"` and `\` get a
backslash, the five control shortcuts `\b \t \n \f \r` apply, all other
characters outside 0x20..0x7E are `\uXXXX`-escaped (with a surrogate pair for
code points above 0xFFFF), and the rest stand for themselves. -/
def escChar (x : Char) : List Char :=
  if x = '"' then ['\\', '"']
  else if x = '\\' then ['\\', '\\']
  else if x.toNat = 8 then ['\\', 'b']
  else if x.toNat = 9 then ['\\', 't']
  else if x.toNat = 10 then ['\\', 'n']
  else if x.toNat = 12 then ['\\', 'f']
  else if x.toNat = 13 then ['\\', 'r']
  else if 32 ≤ x.toNat ∧ x.toNat ≤ 126 then [x]
  else if x.toNat < 65536 then '\\' :: 'u' :: hex4 x.toNat
  else '\\' :: 'u' :: hex4 (55296 + (x.toNat - 65536) / 1024) ++
       '\\' :: 'u' :: hex4 (56320 + (x.toNat - 65536) % 1024)

/-- Escape every character of a string body. -/
def escList : List Char → List Char
  | [] => []
  | x :: rest => escChar x ++ escList rest

/-- JSON string literal: quote, escaped body, quote. -/
def quoteStr (s : String) : List Char :=
  '"' :: escList s.data ++ ['"']

/- JSON values as they occur in the source's serialized dictionaries.
Arrays and objects carry their own spine types so that the encoder is
structurally recursive (and therefore reduces inside the kernel). -/
mutual
inductive Json where
  | null
  | int (i : Int)
  | str (s : String)
  | arr (elems : JsonList)
  | obj (fields : JsonFields)
inductive JsonList where
  | nil
  | cons (hd : Json) (tl : JsonList)
inductive JsonFields where
  | nil
  | cons (key : String) (val : Json) (tl : JsonFields)
end

/-- Build an array spine from a list. -/
def jarr : List Json → JsonList
  | [] => .nil
  | j :: rest => .cons j (jarr rest)

/-- Build an object spine from a key/value list. -/
def jfields : List (String × Json) → JsonFields
  | [] => .nil
  | (k, v) :: rest => .cons k v (jfields rest)

/-- Lexicographic code-point comparison of character lists, matching Python's
string ordering. -/
def charsLt : List Char → List Char → Bool
  | [], [] => false
  | [], _ :: _ => true
  | _ :: _, [] => false
  | a :: as, b :: bs =>
    if a.toNat < b.toNat then true
    else if b.toNat < a.toNat then false
    else charsLt as bs

/-- Python string `<`. -/
def strLt (a b : String) : Bool := charsLt a.data b.data

/-- Insert a key/value pair into a key-sorted list (ascending by key,
lexicographic code-point order, matching Python's `sorted`). -/
def insertField {β : Type} (p : String × β) : List (String × β) → List (String × β)
  | [] => [p]
  | q :: rest => if strLt p.1 q.1 then p :: q :: rest else q :: insertField p rest

/-- Sort an association list by key, as `sort_keys=True` does. -/
def sortFields {β : Type} : List (String × β) → List (String × β)
  | [] => []
  | p :: rest => insertField p (sortFields rest)

/-- Join pre-encoded items with `,` (the item separator of
`separators=(',', ':')`). -/
def joinComma : List (List Char) → List Char
  | [] => []
  | [a] => a
  | a :: rest => a ++ ',' :: joinComma rest

/- Canonical encoding of a JSON value: `json.dumps(v, sort_keys=True,
separators=(',', ':'))` as a character list.  Object keys are sorted at every
level; values are encoded first and the encoded pairs are then arranged in
key order, which yields the same characters as sorting before encoding. -/
mutual
def encJson : Json → List Char
  | .null => ['n', 'u', 'l', 'l']
  | .int i => (toString i).data
  | .str s => quoteStr s
  | .arr elems => '[' :: joinComma (encItems elems) ++ [']']
  | .obj fields =>
    '\x7b' :: joinComma ((sortFields (encFields fields)).map
      fun kv => quoteStr kv.1 ++ ':' :: kv.2) ++ ['\x7d']
def encItems : JsonList → List (List Char)
  | .nil => []
  | .cons hd tl => encJson hd :: encItems tl
def encFields : JsonFields → List (String × List Char)
  | .nil => []
  | .cons k v tl => (k, encJson v) :: encFields tl
end

/-- Model of `hash_dict_hex` (src/crypto/hashing.py): the SHA-256 hex digest
of the canonical encoding, modelled as an injective function of the encoding
(the encoding itself, rendered as a string). -/
def hash_dict_hex (j : Json) : String :=
  ⟨encJson j⟩

/-! ## Keys and signatures (src/crypto/keys.py, src/crypto/signature.py) -/

/-- Ed25519 keypair, modelled by its public key.  `get_address` is the base64
encoding of the public key — a total injective coding modelled as the
identity, so addresses and public keys coincide. -/
structure KeyPair where
  pub : String
deriving DecidableEq

def KeyPair.get_address (kp : KeyPair) : String := kp.pub

/-- Symbolic signature: the signing key's public half together with the exact
bytes that were signed.  Unforgeability by construction. -/
structure Sig where
  pub : String
  msg : List Char
deriving DecidableEq

def KeyPair.sign (kp : KeyPair) (m : List Char) : Sig := ⟨kp.pub, m⟩

/-- `KeyPair.verify(public_key_bytes, signature, message)`: the signature
verifies iff it was produced by that key over exactly those bytes. -/
def KeyPair.verifySig (pubkey : String) (s : Sig) (m : List Char) : Bool :=
  s.pub = pubkey ∧ s.msg = m

/-- Canonical serialization of a signature (base64 in the source); an
injective coding used only inside hashed dictionaries. -/
def sigB64 (s : Sig) : String :=
  ⟨'@' :: s.pub.data ++ '|' :: s.msg⟩

namespace SignedMessage

/-- `SignedMessage.get_signing_bytes` (src/crypto/signature.py lines 22-31):
deterministic JSON encoding of the envelope, sorted keys, no whitespace. -/
def get_signing_bytes (domain chain_id : String) (data : Json) : List Char :=
  encJson (.obj (jfields [("domain", .str domain), ("chain_id", .str chain_id), ("data", data)]))

end SignedMessage

/-- Full signed-message envelope (used directly by claim C9; transactions and
votes inline the same logic, as the source does). -/
structure SignedMessageS where
  domain : String
  chain_id : String
  data : Json
  signature : Option Sig

def SignedMessageS.sign (m : SignedMessageS) (kp : KeyPair) : SignedMessageS :=
  { m with signature := some (kp.sign (SignedMessage.get_signing_bytes m.domain m.chain_id m.data)) }

def SignedMessageS.verify (m : SignedMessageS) (public_key : String) : Bool :=
  match m.signature with
  | none => false
  | some s => KeyPair.verifySig public_key s
      (SignedMessage.get_signing_bytes m.domain m.chain_id m.data)

/-! ## State (src/execution/state.py).  Values stored in the state are the
integers written by `set_balance`/genesis initialization, which is all the
source ever stores. -/

structure State where
  data : List (String × Int)
deriving DecidableEq

namespace State

def get_balance (s : State) (address : String) : Int :=
  (dictGet s.data ("balance:" ++ address)).getD 0

def set_balance (s : State) (address : String) (amount : Int) : State :=
  ⟨dictSet s.data ("balance:" ++ address) amount⟩

/-- `State.transfer` (src/execution/state.py lines 44-53): check, then debit,
then credit; returns the success flag together with the (possibly unchanged)
state. -/
def transfer (s : State) (from_addr to_addr : String) (amount : Int) : Bool × State :=
  let from_balance := s.get_balance from_addr
  if from_balance < amount then (false, s)
  else
    let s1 := s.set_balance from_addr (from_balance - amount)
    let to_balance := s1.get_balance to_addr
    (true, s1.set_balance to_addr (to_balance + amount))

def get_hash (s : State) : String :=
  hash_dict_hex (.obj (jfields (s.data.map fun kv => (kv.1, Json.int kv.2))))

/-- `copy` returns a deep copy; with value semantics this is the state itself. -/
def copy (s : State) : State := s

end State

/-! ## Transactions (src/execution/transaction.py) -/

structure Transaction where
  from_addr : String
  to_addr : String
  amount : Int
  nonce : Nat
  chain_id : String
  signature : Option Sig
  tx_hash : Option String
deriving DecidableEq

namespace Transaction

def to_data_dict (tx : Transaction) : Json :=
  .obj (jfields [("from", .str tx.from_addr), ("to", .str tx.to_addr),
        ("amount", .int tx.amount), ("nonce", .int tx.nonce)])

def to_dict (tx : Transaction) : Json :=
  .obj (jfields [("from", .str tx.from_addr), ("to", .str tx.to_addr),
        ("amount", .int tx.amount), ("nonce", .int tx.nonce),
        ("chain_id", .str tx.chain_id),
        ("signature", (match tx.signature with
          | some s => Json.str (sigB64 s)
          | none => Json.null)),
        ("tx_hash", (match tx.tx_hash with
          | some h => Json.str h
          | none => Json.null))])

/-- Signing sets the signature and then hashes `to_dict()`; at that moment
`tx_hash` is still `None`, so the hashed dictionary has a null `tx_hash`. -/
def sign (tx : Transaction) (kp : KeyPair) : Transaction :=
  let s := kp.sign (SignedMessage.get_signing_bytes "TX" tx.chain_id tx.to_data_dict)
  let tx1 := { tx with signature := some s }
  { tx1 with tx_hash := some (hash_dict_hex tx1.to_dict) }

/-- `Transaction.verify`: decode the sender address into a public key (always
succeeds in the identity-base64 model) and verify the TX-domain envelope. -/
def verify (tx : Transaction) : Bool :=
  match tx.signature with
  | none => false
  | some s => KeyPair.verifySig tx.from_addr s
      (SignedMessage.get_signing_bytes "TX" tx.chain_id tx.to_data_dict)

end Transaction

/-! ## Executor (src/execution/executor.py) -/

structure Executor where
  processed_nonces : List (String × Nat)
deriving DecidableEq

namespace Executor

/-- `execute_transaction` (lines 15-42): verify, check nonce, check balance,
transfer, bump nonce.  The error strings stand in for the source's formatted
messages; no claim depends on their exact text. -/
def execute_transaction (ex : Executor) (state : State) (tx : Transaction) :
    Executor × State × Bool × String :=
  if tx.verify = false then (ex, state, false, "Invalid signature")
  else
    let expected_nonce := (dictGet ex.processed_nonces tx.from_addr).getD 0
    if tx.nonce ≠ expected_nonce then (ex, state, false, "Invalid nonce")
    else
      let from_balance := state.get_balance tx.from_addr
      if from_balance < tx.amount then (ex, state, false, "Insufficient balance")
      else
        let (success, state1) := state.transfer tx.from_addr tx.to_addr tx.amount
        if success = false then (ex, state1, false, "Transfer failed")
        else
          (⟨dictSet ex.processed_nonces tx.from_addr (tx.nonce + 1)⟩, state1, true, "")

/-- `execute_transactions` (lines 44-58): copy the state, apply each
transaction in order, collect the `tx_hash` of each success, keep going on
failure.  The executor's nonce table is threaded through and returned, since
the Python method mutates `self.processed_nonces`. -/
def execute_transactions (ex : Executor) (state : State) (txs : List Transaction) :
    Executor × State × List (Option String) :=
  let rec go (ex : Executor) (s : State) (acc : List (Option String)) :
      List Transaction → Executor × State × List (Option String)
    | [] => (ex, s, acc)
    | tx :: rest =>
      let (ex1, s1, success, _) := ex.execute_transaction s tx
      if success then go ex1 s1 (acc ++ [tx.tx_hash]) rest
      else go ex1 s1 acc rest
  go ex state.copy [] txs

def reset_nonces (_ : Executor) : Executor := ⟨[]⟩

end Executor

/-! ## Votes and vote collection (src/consensus/vote.py) -/

inductive VoteType where
  | prevote
  | precommit
deriving DecidableEq

/-- The enum's wire value. -/
def VoteType.value : VoteType → String
  | .prevote => "prevote"
  | .precommit => "precommit"

structure Vote where
  vote_type : VoteType
  height : Nat
  block_hash : String
  validator_address : String
  chain_id : String
  signature : Option Sig
deriving DecidableEq

namespace Vote

def to_data_dict (v : Vote) : Json :=
  .obj (jfields [("type", .str v.vote_type.value), ("height", .int v.height),
        ("block_hash", .str v.block_hash), ("validator", .str v.validator_address)])

def sign (v : Vote) (kp : KeyPair) : Vote :=
  let s := kp.sign (SignedMessage.get_signing_bytes "VOTE" v.chain_id v.to_data_dict)
  { v with signature := some s }

/-- `Vote.verify`: decode the validator address (identity-base64 model) and
verify the VOTE-domain envelope over `to_data_dict`. -/
def verify (v : Vote) : Bool :=
  match v.signature with
  | none => false
  | some s => KeyPair.verifySig v.validator_address s
      (SignedMessage.get_signing_bytes "VOTE" v.chain_id v.to_data_dict)

end Vote

/-- `VoteCollector` (src/consensus/vote.py lines 96-164): per-height,
per-block-hash voter sets for each phase.  Python sets of addresses are
duplicate-free lists here; `add_vote` only appends after a membership check,
exactly as the source's `if validator in set: return False` does. -/
structure VoteCollector where
  total_validators : Nat
  prevotes : List (Nat × List (String × List String))
  precommits : List (Nat × List (String × List String))
deriving DecidableEq

namespace VoteCollector

/-- `add_vote` (lines 102-133): verify, then record under
`(phase, height, block_hash, validator)` unless already present.  Returns the
is-new flag and the updated collector. -/
def add_vote (c : VoteCollector) (v : Vote) : Bool × VoteCollector :=
  if v.verify = false then (false, c)
  else
    let height := v.height
    let block_hash := v.block_hash
    let validator := v.validator_address
    match v.vote_type with
    | .prevote =>
      let hm := (dictGet c.prevotes height).getD []
      let voters := (dictGet hm block_hash).getD []
      if validator ∈ voters then (false, c)
      else
        let upd := dictSet c.prevotes height (dictSet hm block_hash (voters ++ [validator]))
        (true, { c with prevotes := upd })
    | .precommit =>
      let hm := (dictGet c.precommits height).getD []
      let voters := (dictGet hm block_hash).getD []
      if validator ∈ voters then (false, c)
      else
        let upd := dictSet c.precommits height (dictSet hm block_hash (voters ++ [validator]))
        (true, { c with precommits := upd })

def get_prevote_count (c : VoteCollector) (height : Nat) (block_hash : String) : Nat :=
  match dictGet c.prevotes height with
  | none => 0
  | some hm =>
    match dictGet hm block_hash with
    | none => 0
    | some voters => voters.length

def get_precommit_count (c : VoteCollector) (height : Nat) (block_hash : String) : Nat :=
  match dictGet c.precommits height with
  | none => 0
  | some hm =>
    match dictGet hm block_hash with
    | none => 0
    | some voters => voters.length

/-- `has_prevote_majority` (lines 135-140): more than 2N/3 recorded voters,
with integer division. -/
def has_prevote_majority (c : VoteCollector) (height : Nat) (block_hash : String) : Bool :=
  match dictGet c.prevotes height with
  | none => false
  | some hm =>
    match dictGet hm block_hash with
    | none => false
    | some voters => decide (2 * c.total_validators / 3 < voters.length)

/-- `has_precommit_majority` (lines 142-147). -/
def has_precommit_majority (c : VoteCollector) (height : Nat) (block_hash : String) : Bool :=
  match dictGet c.precommits height with
  | none => false
  | some hm =>
    match dictGet hm block_hash with
    | none => false
    | some voters => decide (2 * c.total_validators / 3 < voters.length)

end VoteCollector

/-! ## Blocks (src/consensus/block.py) -/

structure BlockHeader where
  height : Nat
  parent_hash : String
  state_hash : String
  tx_root : String
  timestamp : Int
  proposer : String
deriving DecidableEq

namespace BlockHeader

def to_dict (h : BlockHeader) : Json :=
  .obj (jfields [("height", .int h.height), ("parent_hash", .str h.parent_hash),
        ("state_hash", .str h.state_hash), ("tx_root", .str h.tx_root),
        ("timestamp", .int h.timestamp), ("proposer", .str h.proposer)])

def get_hash (h : BlockHeader) : String := hash_dict_hex h.to_dict

end BlockHeader

/-- `Block`: header, ordered transactions, cached `block_hash`, `_finalized`
flag.  `get_hash` returns the cached hash when present and the header hash
otherwise; the Python cache write stores the same value it returns, so the
read-only model is observationally identical. -/
structure Block where
  header : BlockHeader
  transactions : List Transaction
  block_hash : Option String
  finalized : Bool
deriving DecidableEq

namespace Block

def get_hash (b : Block) : String :=
  match b.block_hash with
  | some h => h
  | none => b.header.get_hash

def is_finalized (b : Block) : Bool := b.finalized

def mark_finalized (b : Block) : Block := { b with finalized := true }

/-- The typed content of the dictionary that `Block.from_dict` consumes:
a header (already structurally decoded), transactions, an optional
`block_hash` entry and an optional `finalized` entry (`d.get("finalized",
False)`). -/
structure DictData where
  header : BlockHeader
  transactions : List Transaction
  block_hash : Option String
  finalized : Option Bool
deriving DecidableEq

/-- `Block.from_dict` (src/consensus/block.py lines 77-84): the cached
`block_hash` is taken from the dictionary as-is, never recomputed. -/
def from_dict (d : DictData) : Block :=
  ⟨d.header, d.transactions, d.block_hash, d.finalized.getD false⟩

/-- `Block.create_genesis` (lines 86-97); the wall-clock timestamp is an
explicit argument.  The `chain_id` parameter is accepted and unused, exactly
as in the source. -/
def create_genesis (_chain_id : String) (initial_state_hash : String) (ts : Int) : Block :=
  ⟨⟨0, ⟨List.replicate 64 '0'⟩, initial_state_hash, ⟨List.replicate 64 '0'⟩, ts, "genesis"⟩,
   [], none, false⟩

end Block

structure BlockProposal where
  block : Block
  proposer_address : String
  proposal_hash : String
deriving DecidableEq

/-- The `BlockProposal` constructor computes `proposal_hash = block.get_hash()`. -/
def BlockProposal.make (block : Block) (proposer_address : String) : BlockProposal :=
  ⟨block, proposer_address, block.get_hash⟩

/-! ## Consensus engine (src/consensus/consensus.py).

Python method names carry a leading underscore for the internal helpers
(`_validate_proposal`, `_send_prevote`, `_send_precommit`,
`_check_phase_transitions`, `_finalize_block`, `_process_pending_votes`,
`_compute_tx_root`); the underscore is dropped here.  Python
`initialize_genesis` is rendered `init_genesis`.  The logger argument is
dropped.  Methods that mutate `self` return the updated engine. -/

structure ConsensusEngine where
  chain_id : String
  validator_keypair : KeyPair
  validator_address : String
  all_validators : List String
  total_validators : Nat
  current_height : Nat
  current_state : State
  blockchain : List Block
  vote_collector : VoteCollector
  pending_blocks : List (Nat × List (String × Block))
  pending_votes : List Vote
  prevoted : List (Nat × String)
  precommitted : List (Nat × String)
  executor : Executor
deriving DecidableEq

namespace ConsensusEngine

/-- `__init__` (lines 21-44). -/
def new (chain_id : String) (validator_keypair : KeyPair) (all_validators : List String) :
    ConsensusEngine :=
  ⟨chain_id, validator_keypair, validator_keypair.get_address, all_validators,
   all_validators.length, 0, ⟨[]⟩, [], ⟨all_validators.length, [], []⟩, [], [], [], [], ⟨[]⟩⟩

/-- Python `initialize_genesis` (lines 46-57): build the genesis state from
the initial balances (Python dict iteration order = insertion order), create
and finalize the genesis block, append it, and set the height to 1. -/
def init_genesis (e : ConsensusEngine) (initial_balances : List (String × Int)) (ts : Int) :
    ConsensusEngine :=
  let genesis_state := initial_balances.foldl (fun s ab => s.set_balance ab.1 ab.2) (State.mk [])
  let genesis_block := (Block.create_genesis e.chain_id genesis_state.get_hash ts).mark_finalized
  { e with current_state := genesis_state,
           blockchain := e.blockchain ++ [genesis_block],
           current_height := 1 }

/-- Membership test `height in pending_blocks and hash in pending_blocks[height]`. -/
def pendingLookup (pb : List (Nat × List (String × Block))) (height : Nat) (block_hash : String) :
    Option Block :=
  (dictGet pb height).bind fun m => dictGet m block_hash

/-- `pending_blocks[height][hash] = block`, creating the inner dict if absent. -/
def pendingStore (pb : List (Nat × List (String × Block))) (height : Nat) (block_hash : String)
    (blk : Block) : List (Nat × List (String × Block)) :=
  dictSet pb height (dictSet ((dictGet pb height).getD []) block_hash blk)

/-- `_compute_tx_root` (lines 258-262). -/
def compute_tx_root (transactions : List Transaction) : String :=
  hash_dict_hex (.obj (jfields [("transactions", .arr (jarr (transactions.map fun tx =>
    match tx.tx_hash with
    | some h => Json.str h
    | none => Json.null)))]))

/-- `propose_block` (lines 61-89): execute the pool on `current_state`
(note: WITHOUT resetting the executor's nonce table — see claim C3), build
the header and wrap it.  The wall-clock timestamp is an explicit argument.
Returns the proposal together with the engine, whose executor's nonce table
the execution mutated.  `blockchain[-1]` is total here (defaulting to "" on
an empty chain, where Python would raise); every engine that proposes has
passed `initialize_genesis`, so the chain is never empty. -/
def propose_block (e : ConsensusEngine) (transactions : List Transaction) (ts : Int) :
    BlockProposal × ConsensusEngine :=
  let parent_hash := ((e.blockchain.getLast?).map Block.get_hash).getD ""
  let res := e.executor.execute_transactions e.current_state transactions
  let header : BlockHeader :=
    ⟨e.current_height, parent_hash, res.2.1.get_hash, compute_tx_root transactions, ts,
     e.validator_address⟩
  let block : Block := ⟨header, transactions, none, false⟩
  (BlockProposal.make block e.validator_address, { e with executor := res.1 })

/-- `_validate_proposal` (lines 140-168): height, parent, transaction
signatures, then re-execution with a reset nonce table against the header's
state commitment.  The executor mutation (reset + execution) is threaded
through, as `self.executor` is mutated in place in the source. -/
def validate_proposal (e : ConsensusEngine) (proposal : BlockProposal) :
    Bool × ConsensusEngine :=
  let block := proposal.block
  if block.header.height ≠ e.current_height then (false, e)
  else if e.blockchain.length > 0 ∧
      block.header.parent_hash ≠ ((e.blockchain.getLast?).map Block.get_hash).getD "" then
    (false, e)
  else if ¬ (block.transactions.all Transaction.verify) then (false, e)
  else
    let ex := e.executor.reset_nonces
    let res := ex.execute_transactions e.current_state block.transactions
    (decide (res.2.1.get_hash = block.header.state_hash), { e with executor := res.1 })

/-- `_send_prevote` (lines 170-185): at most one prevote per height; record
it in `prevoted` and feed the signed vote into the own collector. -/
def send_prevote (e : ConsensusEngine) (height : Nat) (block_hash : String) : ConsensusEngine :=
  if (dictGet e.prevoted height).isSome then e
  else
    let vote := (Vote.mk .prevote height block_hash e.validator_address e.chain_id none).sign
      e.validator_keypair
    let e1 := { e with prevoted := dictSet e.prevoted height block_hash }
    { e1 with vote_collector := (e1.vote_collector.add_vote vote).2 }

/-- `_send_precommit` (lines 187-202). -/
def send_precommit (e : ConsensusEngine) (height : Nat) (block_hash : String) : ConsensusEngine :=
  if (dictGet e.precommitted height).isSome then e
  else
    let vote := (Vote.mk .precommit height block_hash e.validator_address e.chain_id none).sign
      e.validator_keypair
    let e1 := { e with precommitted := dictSet e.precommitted height block_hash }
    { e1 with vote_collector := (e1.vote_collector.add_vote vote).2 }

/-- `_finalize_block` (lines 222-243): abort if the block is absent at that
height or already finalized; otherwise reset nonces, execute, mark the (shared)
pending block finalized, append it, replace the state, bump the height.
Pending blocks are NOT removed. -/
def finalize_block (e : ConsensusEngine) (height : Nat) (block_hash : String) : ConsensusEngine :=
  match pendingLookup e.pending_blocks height block_hash with
  | none => e
  | some block =>
    if block.is_finalized then e
    else
      let ex := e.executor.reset_nonces
      let res := ex.execute_transactions e.current_state block.transactions
      let fblock := block.mark_finalized
      { e with executor := res.1,
               pending_blocks := pendingStore e.pending_blocks height block_hash fblock,
               blockchain := e.blockchain ++ [fblock],
               current_state := res.2.1,
               current_height := e.current_height + 1 }

/-- `_check_phase_transitions` (lines 202-220): precommit once the prevote
quorum holds (unless already precommitted at this height), then finalize once
the precommit quorum holds.  Note: no comparison of `height` against
`current_height` anywhere on this path. -/
def check_phase_transitions (e : ConsensusEngine) (height : Nat) (block_hash : String) :
    ConsensusEngine :=
  let e1 :=
    if (dictGet e.precommitted height).isNone ∧
        e.vote_collector.has_prevote_majority height block_hash then
      e.send_precommit height block_hash
    else e
  if e1.vote_collector.has_precommit_majority height block_hash then
    e1.finalize_block height block_hash
  else e1

/-- `receive_vote` (lines 113-138): drop invalid signatures, buffer votes for
unknown blocks, insert into the collector, re-check phase transitions for new
votes. -/
def receive_vote (e : ConsensusEngine) (vote : Vote) : ConsensusEngine :=
  if vote.verify = false then e
  else
    let height := vote.height
    let block_hash := vote.block_hash
    if (pendingLookup e.pending_blocks height block_hash).isNone then
      { e with pending_votes := e.pending_votes ++ [vote] }
    else
      let res := e.vote_collector.add_vote vote
      let e1 := { e with vote_collector := res.2 }
      if res.1 = false then e1
      else e1.check_phase_transitions height block_hash

/-- `_process_pending_votes` (lines 245-256): replay every buffered vote whose
block is now known, then remove exactly those from the buffer.  `receive_vote`
never alters `pending_blocks` and, on the replayed (known-block) path, never
re-buffers, so the fold matches the Python loop over the live list. -/
def process_pending_votes (e : ConsensusEngine) : ConsensusEngine :=
  let snapshot := e.pending_votes
  let e1 := snapshot.foldl
    (fun acc v =>
      if (pendingLookup acc.pending_blocks v.height v.block_hash).isSome then
        acc.receive_vote v
      else acc)
    e
  let remaining := snapshot.filter
    (fun v => !(pendingLookup e1.pending_blocks v.height v.block_hash).isSome)
  { e1 with pending_votes := remaining }

/-- `receive_proposal` (lines 91-111): store the block under its (possibly
sender-asserted) `get_hash()`, validate, prevote when valid, then replay
buffered votes. -/
def receive_proposal (e : ConsensusEngine) (proposal : BlockProposal) : ConsensusEngine :=
  let block := proposal.block
  let height := block.header.height
  let block_hash := block.get_hash
  let e1 := { e with pending_blocks := pendingStore e.pending_blocks height block_hash block }
  let res := e1.validate_proposal proposal
  let e3 := if res.1 then res.2.send_prevote height block_hash else res.2
  e3.process_pending_votes

end ConsensusEngine

/-- Engine-level reachability: a freshly constructed engine after
`initialize_genesis`, then any sequence of `receive_proposal` and
`receive_vote` calls with arbitrary (including adversarial) arguments.
This is exactly the interface the node layer (src/node.py `tick`) drives:
`BLOCK_PROPOSAL` messages are deserialized and passed to `receive_proposal`,
`VOTE` messages to `receive_vote`, with no further validation. -/
inductive EngineReach (chain_id : String) (kp : KeyPair) (validators : List String)
    (balances : List (String × Int)) (ts : Int) : ConsensusEngine → Prop where
  | genesis :
      EngineReach chain_id kp validators balances ts
        ((ConsensusEngine.new chain_id kp validators).init_genesis balances ts)
  | proposal (p : BlockProposal) {e : ConsensusEngine} :
      EngineReach chain_id kp validators balances ts e →
      EngineReach chain_id kp validators balances ts (e.receive_proposal p)
  | vote (v : Vote) {e : ConsensusEngine} :
      EngineReach chain_id kp validators balances ts e →
      EngineReach chain_id kp validators balances ts (e.receive_vote v)

/-! ## Auxiliary predicates used by the claims -/

namespace VoteCollector

/-- Bool test: is `(phase, height, block_hash, validator)` already recorded? -/
def is_recorded (c : VoteCollector) (v : Vote) : Bool :=
  match v.vote_type with
  | .prevote =>
    decide (v.validator_address ∈
      ((dictGet ((dictGet c.prevotes v.height).getD []) v.block_hash).getD []))
  | .precommit =>
    decide (v.validator_address ∈
      ((dictGet ((dictGet c.precommits v.height).getD []) v.block_hash).getD []))

/-- Every stored voter set is duplicate-free (true of every collector built by
`add_vote`, which is what makes the stored lengths counts of distinct
validators). -/
def voter_sets_nodup (c : VoteCollector) : Prop :=
  (∀ h m, dictGet c.prevotes h = some m → ∀ bh l, dictGet m bh = some l → l.Nodup) ∧
  (∀ h m, dictGet c.precommits h = some m → ∀ bh l, dictGet m bh = some l → l.Nodup)

end VoteCollector

/-! ## Concrete scenario data.

All scenarios share `chain_id = "c"`, empty or tiny genesis balances, and
timestamp 0.  Validator addresses are short strings (addresses are public
keys in the identity-base64 model). -/

def validators3 : List String := ["va", "vb", "vc"]

def validators6 : List String := ["v1", "v2", "v3", "v4", "v5", "v6"]

/-- Shorthand: a signed precommit vote by `who` (signing with their own key,
as a Byzantine sender does for made-up keys). -/
def mkPrecommit (who : String) (height : Nat) (block_hash : String) : Vote :=
  (Vote.mk .precommit height block_hash who "c" none).sign ⟨who⟩

/-! ### C2: executor statefulness -/

def c2_tx : Transaction := (Transaction.mk "A" "B" 5 0 "c" none none).sign ⟨"A"⟩

def c2_s0 : State := ⟨[("balance:A", 10)]⟩

/-- First call on a fresh instance. -/
def c2_r1 : Executor × State × List (Option String) :=
  (Executor.mk []).execute_transactions c2_s0 [c2_tx]

/-- Second call on the same instance (the executor returned by the first
call), with identical arguments. -/
def c2_r2 : Executor × State × List (Option String) :=
  c2_r1.1.execute_transactions c2_s0 [c2_tx]

/-! ### C3: propose_block does not reset the nonce table -/

def c3_engine0 : ConsensusEngine :=
  (ConsensusEngine.new "c" ⟨"va"⟩ validators3).init_genesis [("A", 10)] 0

def c3_tx1 : Transaction := (Transaction.mk "A" "B" 5 0 "c" none none).sign ⟨"A"⟩

/-- An adversarial proposal at the correct height with the correct parent and
valid transactions but a wrong state commitment: validation re-executes (and
thereby populates the engine's executor nonce table) and then rejects. -/
def c3_badBlock : Block :=
  ⟨⟨1, ((c3_engine0.blockchain.getLast?).map Block.get_hash).getD "",
    "not-the-state-hash", ConsensusEngine.compute_tx_root [c3_tx1], 0, "eve"⟩,
   [c3_tx1], none, false⟩

def c3_engine1 : ConsensusEngine :=
  c3_engine0.receive_proposal (BlockProposal.make c3_badBlock "eve")

def c3_tx2 : Transaction := (Transaction.mk "A" "B" 3 0 "c" none none).sign ⟨"A"⟩

/-- The proposal the engine now builds from a one-transaction pool. -/
def c3_proposal : BlockProposal := (c3_engine1.propose_block [c3_tx2] 7).1

/-- A peer validator with the same configuration and chain. -/
def c3_peer : ConsensusEngine :=
  (ConsensusEngine.new "c" ⟨"vb"⟩ validators3).init_genesis [("A", 10)] 0

/-! ### C4: chain indexing under adversarial votes -/

def c4_engine0 : ConsensusEngine :=
  (ConsensusEngine.new "c" ⟨"va"⟩ validators3).init_genesis [] 0

/-- A height-2 block with a junk parent; `receive_proposal` stores it in
`pending_blocks` even though validation rejects it. -/
def c4_block : Block := ⟨⟨2, "junk-parent", "s", "t", 0, "eve"⟩, [], none, false⟩

/-- Deliver the proposal, then three verifying precommits for `(2, hash)` from
three addresses outside the validator set (made-up keypairs); with N = 3 the
threshold is `count > 2`, so the third vote finalizes the block at height 2
while `current_height = 1`. -/
def c4_run : ConsensusEngine :=
  (((c4_engine0.receive_proposal (BlockProposal.make c4_block "eve")).receive_vote
      (mkPrecommit "x" 2 c4_block.get_hash)).receive_vote
      (mkPrecommit "y" 2 c4_block.get_hash)).receive_vote
      (mkPrecommit "z" 2 c4_block.get_hash)

/-! ### C5: duplicated proposal delivery resets the finalized flag -/

def c5_block : Block := ⟨⟨1, "junk-parent", "s", "t", 0, "eve"⟩, [], none, false⟩

def c5_proposal : BlockProposal := BlockProposal.make c5_block "eve"

/-- Genesis, proposal, three precommits (finalizes `(1, hash)`), then the SAME
proposal message delivered again — as the adversarial transport's duplication
does — which overwrites the pending entry with a fresh un-finalized block
object. -/
def c5_run : ConsensusEngine :=
  ((((c4_engine0.receive_proposal c5_proposal).receive_vote
      (mkPrecommit "x" 1 c5_block.get_hash)).receive_vote
      (mkPrecommit "y" 1 c5_block.get_hash)).receive_vote
      (mkPrecommit "z" 1 c5_block.get_hash)).receive_proposal c5_proposal

/-! ### C1: two honest engines finalize conflicting blocks at height 1.

System: N = 6 validators `v1..v6`; `v1` is Byzantine (1 < ⌊6/3⌋ = 2 faulty),
`v2..v6` honest.  The quorum threshold is `count > 2*6/3 = 4`, i.e. 5 voters.
`v1` broadcasts two conflicting (otherwise valid) height-1 proposals and five
precommits signed with five made-up keypairs `s1..s5` / `t1..t5` for each;
neither `VoteCollector.add_vote` nor the node layer checks that a vote's
validator is one of the N configured validators, so the sybil votes count
toward the quorum. -/

def c1_genesis_state_hash : String := (State.mk []).get_hash

def c1_genesis_hash : String := (Block.create_genesis "c" c1_genesis_state_hash 0).get_hash

/-- A fully valid empty block at height 1 (correct parent and state
commitment), distinguished from its sibling only by the timestamp. -/
def c1_block (ts : Int) : Block :=
  ⟨⟨1, c1_genesis_hash, c1_genesis_state_hash, ConsensusEngine.compute_tx_root [], ts, "v1"⟩,
   [], none, false⟩

def c1_bX : Block := c1_block 0

def c1_bY : Block := c1_block 1

def c1_e2_start : ConsensusEngine :=
  (ConsensusEngine.new "c" ⟨"v2"⟩ validators6).init_genesis [] 0

def c1_e3_start : ConsensusEngine :=
  (ConsensusEngine.new "c" ⟨"v3"⟩ validators6).init_genesis [] 0

/-- Honest node v2: receives proposal `bX` (validates it and prevotes), then
five sybil precommits for `(1, bX)`; the fifth completes a quorum and v2
finalizes `bX`. -/
def c1_e2_run : ConsensusEngine :=
  (((((c1_e2_start.receive_proposal (BlockProposal.make c1_bX "v1")).receive_vote
      (mkPrecommit "s1" 1 c1_bX.get_hash)).receive_vote
      (mkPrecommit "s2" 1 c1_bX.get_hash)).receive_vote
      (mkPrecommit "s3" 1 c1_bX.get_hash)).receive_vote
      (mkPrecommit "s4" 1 c1_bX.get_hash)).receive_vote
      (mkPrecommit "s5" 1 c1_bX.get_hash)

/-- Honest node v3: same with the conflicting block `bY`. -/
def c1_e3_run : ConsensusEngine :=
  (((((c1_e3_start.receive_proposal (BlockProposal.make c1_bY "v1")).receive_vote
      (mkPrecommit "t1" 1 c1_bY.get_hash)).receive_vote
      (mkPrecommit "t2" 1 c1_bY.get_hash)).receive_vote
      (mkPrecommit "t3" 1 c1_bY.get_hash)).receive_vote
      (mkPrecommit "t4" 1 c1_bY.get_hash)).receive_vote
      (mkPrecommit "t5" 1 c1_bY.get_hash)

/-! ### C10: sender-asserted block hashes -/

/-- A serialized block whose `block_hash` entry is unrelated to its header. -/
def c10_dict : Block.DictData :=
  ⟨⟨1, "p", "s", "t", 0, "pr"⟩, [], some "asserted-hash", some false⟩

def c10_engine0 : ConsensusEngine :=
  (ConsensusEngine.new "c" ⟨"va"⟩ validators3).init_genesis [] 0

def c10_engine1 : ConsensusEngine :=
  c10_engine0.receive_proposal (BlockProposal.make (Block.from_dict c10_dict) "eve")

/-! ## Generic lemmas about the Python-dict model -/

theorem dictGet_dictSet_self {α β : Type} [DecidableEq α] (l : List (α × β)) (k : α) (v : β) :
    dictGet (dictSet l k v) k = some v := by
  induction l with
  | nil => simp [dictGet, dictSet]
  | cons p rest ih =>
    obtain ⟨pk, pv⟩ := p
    by_cases hk : pk = k
    · simp [dictGet, dictSet, hk]
    · simp [dictGet, dictSet, hk, ih]

theorem dictGet_dictSet_ne {α β : Type} [DecidableEq α] (l : List (α × β)) (k k' : α) (v : β)
    (h : k' ≠ k) : dictGet (dictSet l k v) k' = dictGet l k' := by
  have h' : ¬ k = k' := fun hh => h hh.symm
  induction l with
  | nil => simp [dictGet, dictSet, h']
  | cons p rest ih =>
    obtain ⟨pk, pv⟩ := p
    by_cases hk : pk = k
    · subst hk
      simp [dictGet, dictSet, h']
    · simp [dictGet, dictSet, hk, ih]

theorem string_ext {s t : String} (h : s.data = t.data) : s = t := by
  cases s; cases t; simp_all

theorem string_append_cancel_left {p s t : String} (h : p ++ s = p ++ t) : s = t := by
  apply string_ext
  have hd : p.data ++ s.data = p.data ++ t.data := by
    have := congrArg String.data h
    simpa [String.data_append] using this
  exact List.append_cancel_left hd

/-! ## Claim C2: executor determinism -/

/-- C2 (corrected), counterexample: `execute_transactions` is NOT a pure
function of `(s, txs)`.  Two successive calls on the same `Executor` instance
(src/execution/executor.py: the second call sees the `processed_nonces` table
mutated by the first) with identical arguments `(c2_s0, [c2_tx])` return
different results: the first executes the transaction, the second rejects its
nonce and returns the untouched state and an empty executed list. -/
theorem C2_executor_not_pure_counterexample :
    c2_r1.2.2 ≠ [] ∧ c2_r2.2.2 = [] ∧ c2_r1.2 ≠ c2_r2.2 := by
  refine ⟨?_, ?_, ?_⟩ <;> decide

/-- C2 amended: `execute_transactions` is a pure function of the executor's
`processed_nonces` table together with `(s, txs)`; in particular two calls
whose nonce tables were reset (e.g. by `reset_nonces`, as the validation and
finalization paths do) return equal results. -/
theorem C2_executor_determinism_amended :
    (∀ (ex1 ex2 : Executor) (s : State) (txs : List Transaction),
        ex1.processed_nonces = ex2.processed_nonces →
        ex1.execute_transactions s txs = ex2.execute_transactions s txs) ∧
    (∀ (ex1 ex2 : Executor) (s : State) (txs : List Transaction),
        ex1.reset_nonces.execute_transactions s txs =
          ex2.reset_nonces.execute_transactions s txs) := by
  constructor
  · intro ex1 ex2 s txs h
    cases ex1; cases ex2
    simp_all
  · intro ex1 ex2 s txs
    rfl

/-- C2 witness: the amended determinism applied at a concrete nonce table,
state and transaction list. -/
theorem C2_executor_determinism_amended_witness :
    (Executor.mk [("A", 1)]).execute_transactions c2_s0 [c2_tx] =
      (Executor.mk [("A", 1)]).execute_transactions c2_s0 [c2_tx] :=
  C2_executor_determinism_amended.1 (Executor.mk [("A", 1)]) (Executor.mk [("A", 1)]) c2_s0
    [c2_tx] rfl

/-! ## Claim C8: State.transfer -/

theorem get_set_balance_self (s : State) (x : String) (v : Int) :
    (s.set_balance x v).get_balance x = v := by
  simp [State.set_balance, State.get_balance, dictGet_dictSet_self]

theorem balance_key_inj {x y : String} (h : "balance:" ++ x = "balance:" ++ y) : x = y :=
  string_append_cancel_left h

theorem get_set_balance_ne (s : State) (x y : String) (v : Int) (hxy : y ≠ x) :
    (s.set_balance x v).get_balance y = s.get_balance y := by
  have hkey : "balance:" ++ y ≠ "balance:" ++ x := fun hc => hxy (balance_key_inj hc)
  simp [State.set_balance, State.get_balance, dictGet_dictSet_ne _ _ _ _ hkey]

/-- C8 (corrected), counterexample: with a negative amount the claim's
universal quantification over integers fails.  `transfer("a", "b", -5)` on the
empty state succeeds (the sender's balance 0 is not `< -5`) and leaves the
receiver with the negative balance `-5`. -/
theorem C8_transfer_counterexample :
    ((State.mk []).transfer "a" "b" (-5)).1 = true ∧
    ((State.mk []).transfer "a" "b" (-5)).2.get_balance "b" < 0 := by
  constructor <;> decide

/-- C8 amended: `transfer` returns false iff the sender's balance is below the
amount (all integer amounts); a failed transfer leaves the state unchanged; a
successful transfer is exactly the debit-then-credit composition; and when the
amount is nonnegative and the receiver's prior balance is nonnegative, no
negative balance is produced (the unrestricted never-negative clause fails for
negative amounts, per the counterexample). -/
theorem C8_transfer_amended :
    ∀ (s : State) (f t : String) (a : Int),
      ((s.transfer f t a).1 = false ↔ s.get_balance f < a) ∧
      ((s.transfer f t a).1 = false → (s.transfer f t a).2 = s) ∧
      ((s.transfer f t a).1 = true →
        (s.transfer f t a).2 =
          (let s1 := s.set_balance f (s.get_balance f - a)
           s1.set_balance t (s1.get_balance t + a))) ∧
      (0 ≤ a → 0 ≤ s.get_balance t → (s.transfer f t a).1 = true →
        0 ≤ (s.transfer f t a).2.get_balance f ∧ 0 ≤ (s.transfer f t a).2.get_balance t) := by
  intro s f t a
  by_cases hlt : s.get_balance f < a
  · refine ⟨by simp [State.transfer, hlt], by simp [State.transfer, hlt], ?_, ?_⟩
    · intro htrue
      simp [State.transfer, hlt] at htrue
    · intro _ _ htrue
      simp [State.transfer, hlt] at htrue
  · refine ⟨by simp [State.transfer, hlt], by simp [State.transfer, hlt], ?_, ?_⟩
    · intro _
      simp [State.transfer, hlt]
    · intro ha ht _
      have hfa : a ≤ s.get_balance f := le_of_not_lt hlt
      by_cases hft : t = f
      · subst hft
        constructor <;>
          simp [State.transfer, hlt, get_set_balance_self] <;> omega
      · constructor
        · simp [State.transfer, hlt, get_set_balance_self,
            get_set_balance_ne _ _ _ _ (fun hc => hft hc.symm),
            get_set_balance_ne _ _ _ _ hft]
          omega
        · simp [State.transfer, hlt, get_set_balance_self,
            get_set_balance_ne _ _ _ _ hft]
          omega

/-- C8 witness: the amended transfer contract at `(c2_s0, "A", "B", 2)`. -/
theorem C8_transfer_amended_witness :
    0 ≤ (c2_s0.transfer "A" "B" 2).2.get_balance "A" ∧
    0 ≤ (c2_s0.transfer "A" "B" 2).2.get_balance "B" :=
  (C8_transfer_amended c2_s0 "A" "B" 2).2.2.2 (by decide) (by decide) (by decide)

/-! ## Claim C6: quorum predicates -/

/-- Voter sets updated by the `add_vote` insertion stay duplicate-free. -/
theorem nodup_phase_update
    (pm : List (Nat × List (String × List String)))
    (hyp : ∀ h m, dictGet pm h = some m → ∀ bh l, dictGet m bh = some l → l.Nodup)
    (h : Nat) (bh val : String)
    (hmem : val ∉ (dictGet ((dictGet pm h).getD []) bh).getD []) :
    ∀ h' m', dictGet (dictSet pm h (dictSet ((dictGet pm h).getD []) bh
        (((dictGet ((dictGet pm h).getD []) bh).getD []) ++ [val]))) h' = some m' →
      ∀ bh' l, dictGet m' bh' = some l → l.Nodup := by
  intro h' m' hm' bh' l hl
  by_cases hh : h' = h
  · subst hh
    rw [dictGet_dictSet_self] at hm'
    injection hm' with hm'
    subst hm'
    by_cases hbh : bh' = bh
    · subst hbh
      rw [dictGet_dictSet_self] at hl
      injection hl with hl
      subst hl
      have hvn : (((dictGet ((dictGet pm h').getD []) bh').getD []) : List String).Nodup := by
        cases hpm : dictGet pm h' with
        | none => simp [dictGet]
        | some m0 =>
          cases hl0 : dictGet m0 bh' with
          | none => simp [hpm, hl0]
          | some l0 =>
            have := hyp h' m0 hpm bh' l0 hl0
            simpa [hpm, hl0] using this
      refine List.Nodup.append hvn (List.nodup_singleton val) ?_
      intro a ha hb
      simp at hb
      subst hb
      exact hmem ha
    · rw [dictGet_dictSet_ne _ _ _ _ hbh] at hl
      cases hpm : dictGet pm h' with
      | none => rw [hpm] at hl; simp [dictGet] at hl
      | some m0 =>
        rw [hpm] at hl
        exact hyp h' m0 hpm bh' l (by simpa using hl)
  · rw [dictGet_dictSet_ne _ _ _ _ hh] at hm'
    exact hyp h' m' hm' bh' l hl

/-- C6 (confirmed): the prevote and precommit quorum predicates hold iff the
number of recorded validators strictly exceeds `(2 * N) / 3` (Python integer
division), equivalently iff it is at least `⌊2N/3⌋ + 1`; the stored counts are
counts of distinct validators because `add_vote` keeps the voter sets
duplicate-free; and concretely for N = 4, three recorded prevoters reach the
quorum while two do not. -/
theorem C6_quorum_correctness :
    (∀ (c : VoteCollector) (h : Nat) (bh : String),
      (c.has_prevote_majority h bh = true ↔
        2 * c.total_validators / 3 < c.get_prevote_count h bh) ∧
      (c.has_precommit_majority h bh = true ↔
        2 * c.total_validators / 3 < c.get_precommit_count h bh)) ∧
    (∀ k n : Nat, 2 * n / 3 < k ↔ 2 * n / 3 + 1 ≤ k) ∧
    (∀ (c : VoteCollector) (v : Vote),
      c.voter_sets_nodup → ((c.add_vote v).2).voter_sets_nodup) ∧
    (VoteCollector.mk 4 [(1, [("H", ["a", "b", "c"])])] []).has_prevote_majority 1 "H" = true ∧
    (VoteCollector.mk 4 [(1, [("H", ["a", "b"])])] []).has_prevote_majority 1 "H" = false := by
  refine ⟨?_, ?_, ?_, by decide, by decide⟩
  · intro c h bh
    constructor
    · unfold VoteCollector.has_prevote_majority VoteCollector.get_prevote_count
      cases hm : dictGet c.prevotes h with
      | none => simp
      | some m =>
        cases hb : dictGet m bh with
        | none => simp [hb]
        | some voters => simp [hb]
    · unfold VoteCollector.has_precommit_majority VoteCollector.get_precommit_count
      cases hm : dictGet c.precommits h with
      | none => simp
      | some m =>
        cases hb : dictGet m bh with
        | none => simp [hb]
        | some voters => simp [hb]
  · intro k n
    omega
  · intro c v hc
    unfold VoteCollector.add_vote
    by_cases hv : v.verify = false
    · simp [hv, hc]
    · cases ht : v.vote_type with
      | prevote =>
        by_cases hmem : v.validator_address ∈
            ((dictGet ((dictGet c.prevotes v.height).getD []) v.block_hash).getD [])
        · simp [hv, ht, hmem, hc]
        · simp only [hv, ht, if_false, Bool.false_eq_true]
          simp only [hmem, if_false, if_neg hmem]
          exact ⟨nodup_phase_update c.prevotes hc.1 v.height v.block_hash
            v.validator_address hmem, hc.2⟩
      | precommit =>
        by_cases hmem : v.validator_address ∈
            ((dictGet ((dictGet c.precommits v.height).getD []) v.block_hash).getD [])
        · simp [hv, ht, hmem, hc]
        · simp only [hv, ht, if_false, Bool.false_eq_true]
          simp only [hmem, if_false, if_neg hmem]
          exact ⟨hc.1, nodup_phase_update c.precommits hc.2 v.height v.block_hash
            v.validator_address hmem⟩

/-- C6 witness: the nodup-preservation clause applied to the empty collector
and a concrete vote, plus the quorum equivalence at a concrete collector. -/
theorem C6_quorum_correctness_witness :
    ((VoteCollector.mk 4 [] []).add_vote (mkPrecommit "x" 1 "H")).2.voter_sets_nodup ∧
    ((VoteCollector.mk 4 [(1, [("H", ["a", "b", "c"])])] []).has_prevote_majority 1 "H" = true ↔
      2 * 4 / 3 < (VoteCollector.mk 4 [(1, [("H", ["a", "b", "c"])])] []).get_prevote_count 1 "H") := by
  constructor
  · refine C6_quorum_correctness.2.2.1 (VoteCollector.mk 4 [] []) (mkPrecommit "x" 1 "H") ?_
    constructor <;> intro h m hm <;> simp [dictGet] at hm
  · exact (C6_quorum_correctness.1 (VoteCollector.mk 4 [(1, [("H", ["a", "b", "c"])])] []) 1 "H").1

/-! ## Claim C7: add_vote and duplicate rejection -/

/-- C7 (confirmed): `add_vote` returns true iff the vote's signature verifies
and `(phase, height, block_hash, validator)` was not already recorded;
re-submitting the same vote right after returns false and leaves the
collector — hence every voter set — unchanged; and after a successful
insertion, ANY further vote carrying the same
`(phase, height, block_hash, validator)` tuple is rejected, so each tuple is
counted at most once per phase. -/
theorem C7_add_vote_duplicate_rejection :
    ∀ (c : VoteCollector) (v : Vote),
      ((c.add_vote v).1 = (v.verify && !(c.is_recorded v)) ∧
        (c.add_vote v).2.add_vote v = (false, (c.add_vote v).2)) ∧
      ((c.add_vote v).1 = true → ∀ v2 : Vote, v2.vote_type = v.vote_type →
        v2.height = v.height → v2.block_hash = v.block_hash →
        v2.validator_address = v.validator_address →
        ((c.add_vote v).2.add_vote v2).1 = false) := by
  have main : ∀ (c : VoteCollector) (v : Vote),
      (c.add_vote v).1 = (v.verify && !(c.is_recorded v)) ∧
      (c.add_vote v).2.add_vote v = (false, (c.add_vote v).2) := by
    intro c v
    by_cases hv : v.verify = false
    · constructor
      · simp [VoteCollector.add_vote, hv]
      · simp [VoteCollector.add_vote, hv]
    · have hvt : v.verify = true := by
        cases hvv : v.verify
        · exact absurd hvv hv
        · rfl
      cases ht : v.vote_type with
      | prevote =>
        by_cases hmem : v.validator_address ∈
            ((dictGet ((dictGet c.prevotes v.height).getD []) v.block_hash).getD [])
        · constructor
          · simp [VoteCollector.add_vote, VoteCollector.is_recorded, hv, hvt, ht, hmem]
          · simp [VoteCollector.add_vote, hv, ht, hmem]
        · constructor
          · simp [VoteCollector.add_vote, VoteCollector.is_recorded, hv, hvt, ht, hmem]
          · have hnew : v.validator_address ∈
                ((dictGet ((dictGet (dictSet c.prevotes v.height
                  (dictSet ((dictGet c.prevotes v.height).getD []) v.block_hash
                    (((dictGet ((dictGet c.prevotes v.height).getD []) v.block_hash).getD []) ++
                      [v.validator_address]))) v.height).getD []) v.block_hash).getD []) := by
              rw [dictGet_dictSet_self]
              simp [dictGet_dictSet_self]
            simp [VoteCollector.add_vote, hv, ht, hmem, hnew]
      | precommit =>
        by_cases hmem : v.validator_address ∈
            ((dictGet ((dictGet c.precommits v.height).getD []) v.block_hash).getD [])
        · constructor
          · simp [VoteCollector.add_vote, VoteCollector.is_recorded, hv, hvt, ht, hmem]
          · simp [VoteCollector.add_vote, hv, ht, hmem]
        · constructor
          · simp [VoteCollector.add_vote, VoteCollector.is_recorded, hv, hvt, ht, hmem]
          · have hnew : v.validator_address ∈
                ((dictGet ((dictGet (dictSet c.precommits v.height
                  (dictSet ((dictGet c.precommits v.height).getD []) v.block_hash
                    (((dictGet ((dictGet c.precommits v.height).getD []) v.block_hash).getD []) ++
                      [v.validator_address]))) v.height).getD []) v.block_hash).getD []) := by
              rw [dictGet_dictSet_self]
              simp [dictGet_dictSet_self]
            simp [VoteCollector.add_vote, hv, ht, hmem, hnew]
  intro c v
  refine ⟨main c v, ?_⟩
  intro hins v2 ht hh hb hval
  have htuple : ∀ cc : VoteCollector, cc.is_recorded v2 = cc.is_recorded v := by
    intro cc
    unfold VoteCollector.is_recorded
    rw [ht, hh, hb, hval]
  have hver : v.verify = true := by
    have h1 := (main c v).1
    rw [hins] at h1
    cases hvv : v.verify
    · rw [hvv] at h1; simp at h1
    · rfl
  have hrec : ((c.add_vote v).2).is_recorded v = true := by
    have h2 := (main ((c.add_vote v).2) v).1
    rw [(main c v).2] at h2
    rw [hver] at h2
    simp at h2
    exact h2
  have h4 := (main ((c.add_vote v).2) v2).1
  rw [htuple, hrec] at h4
  simp at h4
  exact h4


/-- C7 witness: the add-once contract at the empty collector and a concrete
signed precommit, with the successful-insertion hypothesis discharged
concretely. -/
theorem C7_add_vote_duplicate_rejection_witness :
    ((VoteCollector.mk 3 [] []).add_vote (mkPrecommit "x" 1 "H")).1 =
      ((mkPrecommit "x" 1 "H").verify &&
        !((VoteCollector.mk 3 [] []).is_recorded (mkPrecommit "x" 1 "H"))) ∧
    (((VoteCollector.mk 3 [] []).add_vote (mkPrecommit "x" 1 "H")).2.add_vote
      (mkPrecommit "x" 1 "H")).1 = false :=
  ⟨(C7_add_vote_duplicate_rejection (VoteCollector.mk 3 [] []) (mkPrecommit "x" 1 "H")).1.1,
   (C7_add_vote_duplicate_rejection (VoteCollector.mk 3 [] []) (mkPrecommit "x" 1 "H")).2
     (by decide) (mkPrecommit "x" 1 "H") rfl rfl rfl rfl⟩

/-! ## Pending-block bookkeeping lemmas -/

theorem pendingLookup_pendingStore_self (pb : List (Nat × List (String × Block))) (h : Nat)
    (bh : String) (blk : Block) :
    ConsensusEngine.pendingLookup (ConsensusEngine.pendingStore pb h bh blk) h bh = some blk := by
  unfold ConsensusEngine.pendingLookup ConsensusEngine.pendingStore
  rw [dictGet_dictSet_self]
  simp [dictGet_dictSet_self]

theorem pendingStore_presence (pb : List (Nat × List (String × Block))) (h : Nat) (bh : String)
    (blk : Block) (h' : Nat) (bh' : String)
    (hs : (ConsensusEngine.pendingLookup pb h' bh').isSome = true) :
    (ConsensusEngine.pendingLookup (ConsensusEngine.pendingStore pb h bh blk) h' bh').isSome =
      true := by
  unfold ConsensusEngine.pendingLookup ConsensusEngine.pendingStore
  unfold ConsensusEngine.pendingLookup at hs
  by_cases hh : h' = h
  · subst hh
    rw [dictGet_dictSet_self]
    by_cases hb : bh' = bh
    · subst hb
      simp [dictGet_dictSet_self]
    · simp only [Option.some_bind]
      rw [dictGet_dictSet_ne _ _ _ _ hb]
      cases hpm : dictGet pb h' with
      | none => rw [hpm] at hs; simp at hs
      | some m0 => rw [hpm] at hs; simpa using hs
  · rw [dictGet_dictSet_ne _ _ _ _ hh]
    exact hs

theorem send_prevote_pending (e : ConsensusEngine) (h : Nat) (bh : String) :
    (e.send_prevote h bh).pending_blocks = e.pending_blocks := by
  unfold ConsensusEngine.send_prevote
  split <;> rfl

theorem send_precommit_pending (e : ConsensusEngine) (h : Nat) (bh : String) :
    (e.send_precommit h bh).pending_blocks = e.pending_blocks := by
  unfold ConsensusEngine.send_precommit
  split <;> rfl

theorem validate_pending (e : ConsensusEngine) (p : BlockProposal) :
    ((e.validate_proposal p).2).pending_blocks = e.pending_blocks := by
  unfold ConsensusEngine.validate_proposal
  dsimp only
  split
  · rfl
  · split
    · rfl
    · split
      · rfl
      · rfl

theorem finalize_preserves_presence (e : ConsensusEngine) (h : Nat) (bh : String) (h' : Nat)
    (bh' : String) (hs : (ConsensusEngine.pendingLookup e.pending_blocks h' bh').isSome = true) :
    (ConsensusEngine.pendingLookup (e.finalize_block h bh).pending_blocks h' bh').isSome =
      true := by
  unfold ConsensusEngine.finalize_block
  cases hp : ConsensusEngine.pendingLookup e.pending_blocks h bh with
  | none => exact hs
  | some blk =>
    cases hfin : blk.is_finalized with
    | true => simp only [hfin]; exact hs
    | false =>
      simp only [hfin, Bool.false_eq_true, if_false]
      exact pendingStore_presence _ _ _ _ _ _ hs

theorem check_preserves_presence (e : ConsensusEngine) (h : Nat) (bh : String) (h' : Nat)
    (bh' : String) (hs : (ConsensusEngine.pendingLookup e.pending_blocks h' bh').isSome = true) :
    (ConsensusEngine.pendingLookup (e.check_phase_transitions h bh).pending_blocks h' bh').isSome =
      true := by
  unfold ConsensusEngine.check_phase_transitions
  have he1 : ∀ e1 : ConsensusEngine, e1.pending_blocks = e.pending_blocks →
      (ConsensusEngine.pendingLookup (if e1.vote_collector.has_precommit_majority h bh then
        e1.finalize_block h bh else e1).pending_blocks h' bh').isSome = true := by
    intro e1 hpe
    split
    · exact finalize_preserves_presence e1 h bh h' bh' (by rw [hpe]; exact hs)
    · rw [hpe]; exact hs
  split
  · exact he1 _ (send_precommit_pending e h bh)
  · exact he1 _ rfl

theorem receive_vote_preserves_presence (e : ConsensusEngine) (v : Vote) (h' : Nat)
    (bh' : String) (hs : (ConsensusEngine.pendingLookup e.pending_blocks h' bh').isSome = true) :
    (ConsensusEngine.pendingLookup (e.receive_vote v).pending_blocks h' bh').isSome = true := by
  unfold ConsensusEngine.receive_vote
  split
  · exact hs
  · dsimp only
    split
    · exact hs
    · split
      · exact hs
      · exact check_preserves_presence _ _ _ _ _ hs

theorem process_preserves_presence (e : ConsensusEngine) (h' : Nat) (bh' : String)
    (hs : (ConsensusEngine.pendingLookup e.pending_blocks h' bh').isSome = true) :
    (ConsensusEngine.pendingLookup (e.process_pending_votes).pending_blocks h' bh').isSome =
      true := by
  unfold ConsensusEngine.process_pending_votes
  have hfold : ∀ (vs : List Vote) (e0 : ConsensusEngine),
      (ConsensusEngine.pendingLookup e0.pending_blocks h' bh').isSome = true →
      (ConsensusEngine.pendingLookup
        (vs.foldl (fun acc v =>
          if (ConsensusEngine.pendingLookup acc.pending_blocks v.height v.block_hash).isSome then
            acc.receive_vote v
          else acc) e0).pending_blocks h' bh').isSome = true := by
    intro vs
    induction vs with
    | nil => intro e0 h0; simpa using h0
    | cons v rest ih =>
      intro e0 h0
      simp only [List.foldl]
      apply ih
      split
      · exact receive_vote_preserves_presence _ _ _ _ h0
      · exact h0
  exact hfold _ _ hs

/-! ## Claim C5: finalize idempotence -/

theorem finalize_block_none (e : ConsensusEngine) (h : Nat) (bh : String)
    (hp : ConsensusEngine.pendingLookup e.pending_blocks h bh = none) :
    e.finalize_block h bh = e := by
  unfold ConsensusEngine.finalize_block
  rw [hp]

theorem finalize_block_finalized (e : ConsensusEngine) (h : Nat) (bh : String) (blk : Block)
    (hp : ConsensusEngine.pendingLookup e.pending_blocks h bh = some blk)
    (hf : blk.finalized = true) : e.finalize_block h bh = e := by
  unfold ConsensusEngine.finalize_block
  rw [hp]
  simp [Block.is_finalized, hf]

theorem finalize_block_pending_after (e : ConsensusEngine) (h : Nat) (bh : String) (blk : Block)
    (hp : ConsensusEngine.pendingLookup e.pending_blocks h bh = some blk)
    (hf : blk.finalized = false) :
    ConsensusEngine.pendingLookup (e.finalize_block h bh).pending_blocks h bh =
      some blk.mark_finalized := by
  unfold ConsensusEngine.finalize_block
  rw [hp]
  simp only [Block.is_finalized, hf, Bool.false_eq_true, if_false]
  exact pendingLookup_pendingStore_self _ _ _ _

/-- C5 amended: `_finalize_block` is idempotent under immediate repetition —
the appended block object is the object stored in `pending_blocks`, so the
second call finds it marked finalized and aborts — and it aborts (returning
the engine unchanged) whenever the entry at `(height, block_hash)` is absent
or already finalized.  The claim's original across-the-run form fails when a
re-delivered proposal replaces the pending entry with an un-finalized copy in
between (see the counterexample). -/
theorem C5_finalize_idempotent_amended (e : ConsensusEngine) (h : Nat) (bh : String) :
    (e.finalize_block h bh).finalize_block h bh = e.finalize_block h bh ∧
    (ConsensusEngine.pendingLookup e.pending_blocks h bh = none → e.finalize_block h bh = e) ∧
    (∀ blk : Block, ConsensusEngine.pendingLookup e.pending_blocks h bh = some blk →
      blk.finalized = true → e.finalize_block h bh = e) := by
  refine ⟨?_, fun hp => finalize_block_none e h bh hp,
    fun blk hp hf => finalize_block_finalized e h bh blk hp hf⟩
  cases hp : ConsensusEngine.pendingLookup e.pending_blocks h bh with
  | none => simp only [finalize_block_none e h bh hp]
  | some blk =>
    cases hfin : blk.finalized with
    | true => simp only [finalize_block_finalized e h bh blk hp hfin]
    | false =>
      exact finalize_block_finalized _ h bh blk.mark_finalized
        (finalize_block_pending_after e h bh blk hp hfin) rfl

/-- C5 witness: the amended idempotence at a concrete engine and key, with the
absence hypothesis discharged concretely. -/
theorem C5_finalize_idempotent_amended_witness :
    (c4_engine0.finalize_block 1 "nope").finalize_block 1 "nope" =
      c4_engine0.finalize_block 1 "nope" ∧
    c4_engine0.finalize_block 1 "nope" = c4_engine0 :=
  ⟨(C5_finalize_idempotent_amended c4_engine0 1 "nope").1,
   (C5_finalize_idempotent_amended c4_engine0 1 "nope").2.1 (by decide)⟩

/-- C5 counterexample: in the reachable state `c5_run` the pair
`(1, c5_block.get_hash)` has already been finalized (the chain has length 2
and carries that hash at index 1), yet finalizing it a second time appends a
duplicate entry and bumps `current_height` — because the re-delivered proposal
overwrote the pending entry with a fresh object whose finalized flag is false.
This refutes the claim's across-the-run idempotence. -/
theorem C5_duplicate_finalize_counterexample :
    EngineReach "c" ⟨"va"⟩ validators3 [] 0 c5_run ∧
    c5_run.blockchain.length = 2 ∧
    (c5_run.blockchain[1]?).map Block.get_hash = some c5_block.get_hash ∧
    (c5_run.finalize_block 1 c5_block.get_hash).blockchain.length = 3 ∧
    ((c5_run.finalize_block 1 c5_block.get_hash).blockchain[1]?).map Block.get_hash =
      ((c5_run.finalize_block 1 c5_block.get_hash).blockchain[2]?).map Block.get_hash ∧
    (c5_run.finalize_block 1 c5_block.get_hash).current_height ≠ c5_run.current_height := by
  refine ⟨?_, by decide, by decide, by decide, by decide, by decide⟩
  show EngineReach "c" ⟨"va"⟩ validators3 [] 0 c5_run
  unfold c5_run c4_engine0
  exact .proposal _ (.vote _ (.vote _ (.vote _ (.proposal _ .genesis))))

/-! ## Claim C4: blockchain indexing invariant -/

/-- C4 (code bug): from the genesis state, one adversarial proposal and three
verifying precommit votes reach a state in which the block appended at chain
index 1 has header height 2 (so `blockchain[i].header.height = i` fails) and a
parent hash unrelated to `blockchain[0]` (so the parent-link invariant fails),
because `_finalize_block` never compares the vote height against
`current_height` nor re-checks the parent.  The spec's data-model invariant is
the clear intent; the missing checks are the slip. -/
theorem C4_chain_indexing_code_bug :
    EngineReach "c" ⟨"va"⟩ validators3 [] 0 c4_run ∧
    c4_run.blockchain.map (fun b => b.header.height) = [0, 2] ∧
    c4_run.current_height = 2 ∧
    (c4_run.blockchain[1]?).map (fun b => b.header.parent_hash) = some "junk-parent" ∧
    (c4_run.blockchain[0]?).map Block.get_hash ≠ some "junk-parent" := by
  refine ⟨?_, by decide, by decide, by decide, by decide⟩
  show EngineReach "c" ⟨"va"⟩ validators3 [] 0 c4_run
  unfold c4_run c4_engine0
  exact .vote _ (.vote _ (.vote _ (.proposal _ .genesis)))

/-! ## Claim C1: consensus safety -/

/-- C1 (code bug): two honest engines `v2` and `v3` of the same six-validator
system (one faulty validator `v1`, which is fewer than `⌊6/3⌋ = 2`) finalize
two DIFFERENT blocks at height 1 — both at chain index 1 and both with header
height 1 — after the faulty validator broadcasts two conflicting valid
proposals and, for each, five precommits signed with made-up keypairs.
`VoteCollector.add_vote` verifies a vote against the vote's own
self-certifying validator address and never checks membership in
`all_validators` (src/consensus/vote.py lines 102-133), and the node layer
does not either (src/node.py, VOTE branch of `tick`), so the sybil votes
count toward the `> 2N/3` quorum.  This refutes the spec's safety property;
the spec is the clear intent and the missing membership check the slip. -/
theorem C1_consensus_safety_code_bug :
    EngineReach "c" ⟨"v2"⟩ validators6 [] 0 c1_e2_run ∧
    EngineReach "c" ⟨"v3"⟩ validators6 [] 0 c1_e3_run ∧
    c1_e2_run.blockchain.map (fun b => (b.header.height, b.finalized)) =
      [(0, true), (1, true)] ∧
    c1_e3_run.blockchain.map (fun b => (b.header.height, b.finalized)) =
      [(0, true), (1, true)] ∧
    (c1_e2_run.blockchain[1]?).map Block.get_hash ≠
      (c1_e3_run.blockchain[1]?).map Block.get_hash := by
  refine ⟨?_, ?_, by decide, by decide, by decide⟩
  · show EngineReach "c" ⟨"v2"⟩ validators6 [] 0 c1_e2_run
    unfold c1_e2_run c1_e2_start
    exact .vote _ (.vote _ (.vote _ (.vote _ (.vote _ (.proposal _ .genesis)))))
  · show EngineReach "c" ⟨"v3"⟩ validators6 [] 0 c1_e3_run
    unfold c1_e3_run c1_e3_start
    exact .vote _ (.vote _ (.vote _ (.vote _ (.vote _ (.proposal _ .genesis)))))

/-! ## Claim C3: propose_block and the nonce table -/

/-- C3 (code bug): `propose_block` executes the pool WITHOUT resetting the
executor's nonce table (src/consensus/consensus.py lines 61-89 never call
`reset_nonces`, unlike `_validate_proposal` and `_finalize_block`).  In the
reachable state `c3_engine1` the table holds `{A: 1}` (populated by validating
a rejected proposal), so proposing a pool with A's nonce-0 transaction skips
it: the built header commits to the UNCHANGED state, differs from the
reset-nonce execution the spec prescribes, and the engine's own proposal is
rejected by an identically configured peer validator. -/
theorem C3_propose_without_reset_code_bug :
    EngineReach "c" ⟨"va"⟩ validators3 [("A", 10)] 0 c3_engine1 ∧
    c3_engine1.executor.processed_nonces = [("A", 1)] ∧
    c3_proposal.block.header.state_hash = c3_engine1.current_state.get_hash ∧
    c3_proposal.block.header.state_hash ≠
      ((c3_engine1.executor.reset_nonces.execute_transactions c3_engine1.current_state
        [c3_tx2]).2.1).get_hash ∧
    (c3_peer.validate_proposal c3_proposal).1 = false := by
  refine ⟨?_, by decide, by decide, by decide, by decide⟩
  show EngineReach "c" ⟨"va"⟩ validators3 [("A", 10)] 0 c3_engine1
  unfold c3_engine1 c3_engine0
  exact .proposal _ .genesis

/-! ## Claim C10: sender-asserted block hashes -/

/-- C10 (confirmed): `Block.from_dict` preserves a non-null `block_hash` field
unchanged and `get_hash` answers with it without recomputing the header hash;
for the concrete dictionary `c10_dict` the asserted hash differs from
`hash(header)`; `receive_proposal` files every proposal under
`block.get_hash()`, and for this block that means under the sender-asserted
hash — the slot for the true header hash stays empty. -/
theorem C10_sender_asserted_hash :
    (∀ (d : Block.DictData) (h : String), d.block_hash = some h →
      (Block.from_dict d).get_hash = h) ∧
    (∀ (e : ConsensusEngine) (p : BlockProposal),
      (ConsensusEngine.pendingLookup (e.receive_proposal p).pending_blocks
        p.block.header.height p.block.get_hash).isSome = true) ∧
    (Block.from_dict c10_dict).get_hash ≠ (Block.from_dict c10_dict).header.get_hash ∧
    (ConsensusEngine.pendingLookup c10_engine1.pending_blocks 1 "asserted-hash").isSome = true ∧
    ConsensusEngine.pendingLookup c10_engine1.pending_blocks 1
      (Block.from_dict c10_dict).header.get_hash = none := by
  refine ⟨?_, ?_, by decide, by decide, by decide⟩
  · intro d h hd
    simp [Block.from_dict, Block.get_hash, hd]
  · intro e p
    unfold ConsensusEngine.receive_proposal
    dsimp only
    apply process_preserves_presence
    have hbase : (ConsensusEngine.pendingLookup
        (ConsensusEngine.pendingStore e.pending_blocks p.block.header.height p.block.get_hash
          p.block) p.block.header.height p.block.get_hash).isSome = true := by
      rw [pendingLookup_pendingStore_self]
      rfl
    split
    · rw [send_prevote_pending, validate_pending]
      exact hbase
    · rw [validate_pending]
      exact hbase

/-- C10 witness: the preserved-hash clause applied at the concrete dictionary,
and the filing clause applied at the concrete engine and proposal. -/
theorem C10_sender_asserted_hash_witness :
    (Block.from_dict c10_dict).get_hash = "asserted-hash" ∧
    (ConsensusEngine.pendingLookup
      (c10_engine0.receive_proposal
        (BlockProposal.make (Block.from_dict c10_dict) "eve")).pending_blocks 1
      (Block.from_dict c10_dict).get_hash).isSome = true :=
  ⟨C10_sender_asserted_hash.1 c10_dict "asserted-hash" rfl,
   C10_sender_asserted_hash.2.1 c10_engine0 (BlockProposal.make (Block.from_dict c10_dict) "eve")⟩
/-! ## Claim C9: domain separation (canonical signing bytes) -/

theorem char_eq_of_toNat {x y : Char} (h : x.toNat = y.toNat) : x = y := by
  apply Char.ext
  exact UInt32.ext (by simpa [Char.toNat, UInt32.toNat] using h)

theorem char_toNat_lt (c : Char) : c.toNat < 1114112 := by
  have h := c.valid
  simp [UInt32.isValidChar, Nat.isValidChar] at h
  simp only [Char.toNat]
  rcases h with h | h
  · omega
  · exact h.2

theorem char_not_surrogate (c : Char) : c.toNat < 55296 ∨ 57343 < c.toNat := by
  have h := c.valid
  simp [UInt32.isValidChar, Nat.isValidChar] at h
  simp only [Char.toNat]
  rcases h with h | h
  · left; exact h
  · right; exact h.1

theorem hexDig_inj_fin : ∀ a b : Fin 16, hexDig a.val = hexDig b.val → a = b := by decide

theorem hexDig_inj {a b : Nat} (ha : a < 16) (hb : b < 16) (h : hexDig a = hexDig b) : a = b := by
  have := hexDig_inj_fin ⟨a, ha⟩ ⟨b, hb⟩ h
  simpa using congrArg Fin.val this

theorem escChar_cases (x : Char) :
    (escChar x = [x] ∧ 32 ≤ x.toNat ∧ x.toNat ≤ 126 ∧ x ≠ '"' ∧ x ≠ '\\') ∨
    (∃ c2, escChar x = ['\\', c2] ∧ c2 ≠ 'u' ∧
      ((c2 = '"' ∧ x.toNat = 34) ∨ (c2 = '\\' ∧ x.toNat = 92) ∨ (c2 = 'b' ∧ x.toNat = 8) ∨
       (c2 = 't' ∧ x.toNat = 9) ∨ (c2 = 'n' ∧ x.toNat = 10) ∨ (c2 = 'f' ∧ x.toNat = 12) ∨
       (c2 = 'r' ∧ x.toNat = 13))) ∨
    (escChar x = '\\' :: 'u' :: hex4 x.toNat ∧ x.toNat < 65536) ∨
    (escChar x = '\\' :: 'u' :: hex4 (55296 + (x.toNat - 65536) / 1024) ++
       '\\' :: 'u' :: hex4 (56320 + (x.toNat - 65536) % 1024) ∧ 65536 ≤ x.toNat) := by
  by_cases h1 : x = '"'
  · exact .inr (.inl ⟨'"', by simp [escChar, h1], by decide, .inl ⟨rfl, by subst h1; decide⟩⟩)
  by_cases h2 : x = '\\'
  · exact .inr (.inl ⟨'\\', by simp [escChar, h1, h2], by decide,
      .inr (.inl ⟨rfl, by subst h2; decide⟩)⟩)
  by_cases h3 : x.toNat = 8
  · exact .inr (.inl ⟨'b', by simp [escChar, h1, h2, h3], by decide,
      .inr (.inr (.inl ⟨rfl, h3⟩))⟩)
  by_cases h4 : x.toNat = 9
  · exact .inr (.inl ⟨'t', by simp [escChar, h1, h2, h3, h4], by decide,
      .inr (.inr (.inr (.inl ⟨rfl, h4⟩)))⟩)
  by_cases h5 : x.toNat = 10
  · exact .inr (.inl ⟨'n', by simp [escChar, h1, h2, h3, h4, h5], by decide,
      .inr (.inr (.inr (.inr (.inl ⟨rfl, h5⟩))))⟩)
  by_cases h6 : x.toNat = 12
  · exact .inr (.inl ⟨'f', by simp [escChar, h1, h2, h3, h4, h5, h6], by decide,
      .inr (.inr (.inr (.inr (.inr (.inl ⟨rfl, h6⟩)))))⟩)
  by_cases h7 : x.toNat = 13
  · exact .inr (.inl ⟨'r', by simp [escChar, h1, h2, h3, h4, h5, h6, h7], by decide,
      .inr (.inr (.inr (.inr (.inr (.inr ⟨rfl, h7⟩)))))⟩)
  by_cases h8 : 32 ≤ x.toNat ∧ x.toNat ≤ 126
  · exact .inl ⟨by simp [escChar, h1, h2, h3, h4, h5, h6, h7, h8], h8.1, h8.2, h1, h2⟩
  by_cases h9 : x.toNat < 65536
  · exact .inr (.inr (.inl ⟨by simp [escChar, h1, h2, h3, h4, h5, h6, h7, h8, h9], h9⟩))
  · exact .inr (.inr (.inr ⟨by simp [escChar, h1, h2, h3, h4, h5, h6, h7, h8, h9], by omega⟩))

theorem hex4_append_inj {n m : Nat} {a b : List Char} (hn : n < 65536) (hm : m < 65536)
    (h : hex4 n ++ a = hex4 m ++ b) : n = m ∧ a = b := by
  simp only [hex4, List.cons_append, List.nil_append, List.cons.injEq] at h
  obtain ⟨e1, e2, e3, e4, e5⟩ := h
  have d1 := hexDig_inj (Nat.mod_lt _ (by omega)) (Nat.mod_lt _ (by omega)) e1
  have d2 := hexDig_inj (Nat.mod_lt _ (by omega)) (Nat.mod_lt _ (by omega)) e2
  have d3 := hexDig_inj (Nat.mod_lt _ (by omega)) (Nat.mod_lt _ (by omega)) e3
  have d4 := hexDig_inj (Nat.mod_lt _ (by omega)) (Nat.mod_lt _ (by omega)) e4
  exact ⟨by omega, e5⟩

theorem escChar_append_inj {x y : Char} {a b : List Char}
    (h : escChar x ++ a = escChar y ++ b) : x = y ∧ a = b := by
  rcases escChar_cases x with ⟨hx, hx1, hx2, hx3, hx4⟩ | ⟨cx, hx, hcxu, hmx⟩ |
    ⟨hx, hxlt⟩ | ⟨hx, hxge⟩ <;>
    rcases escChar_cases y with ⟨hy, hy1, hy2, hy3, hy4⟩ | ⟨cy, hy, hcyu, hmy⟩ |
      ⟨hy, hylt⟩ | ⟨hy, hyge⟩ <;>
    rw [hx, hy] at h <;>
    simp only [List.cons_append, List.nil_append, List.append_assoc, List.cons.injEq,
      true_and] at h
  · -- plain / plain
    exact ⟨h.1, h.2⟩
  · -- plain / two
    exact absurd h.1 hx4
  · -- plain / u4
    exact absurd h.1 hx4
  · -- plain / u8
    exact absurd h.1 hx4
  · -- two / plain
    exact absurd h.1.symm hy4
  · -- two / two
    obtain ⟨hcc, hab⟩ := h
    refine ⟨?_, hab⟩
    rcases hmx with ⟨e1, e2⟩ | ⟨e1, e2⟩ | ⟨e1, e2⟩ | ⟨e1, e2⟩ | ⟨e1, e2⟩ | ⟨e1, e2⟩ |
        ⟨e1, e2⟩ <;>
      rcases hmy with ⟨f1, f2⟩ | ⟨f1, f2⟩ | ⟨f1, f2⟩ | ⟨f1, f2⟩ | ⟨f1, f2⟩ | ⟨f1, f2⟩ |
        ⟨f1, f2⟩ <;>
      subst e1 <;> subst f1 <;>
      first
        | exact char_eq_of_toNat (by omega)
        | exact absurd hcc (by decide)
  · -- two / u4
    exact absurd h.1 hcxu
  · -- two / u8
    exact absurd h.1 hcxu
  · -- u4 / plain
    exact absurd h.1.symm hy4
  · -- u4 / two
    exact absurd h.1.symm hcyu
  · -- u4 / u4
    obtain ⟨hnm, hab⟩ := hex4_append_inj hxlt hylt h
    exact ⟨char_eq_of_toNat hnm, hab⟩
  · -- u4 / u8
    have hylim := char_toNat_lt y
    obtain ⟨hnm, _⟩ := hex4_append_inj hxlt (by omega) h
    rcases char_not_surrogate x with hs | hs <;> omega
  · -- u8 / plain
    exact absurd h.1.symm hy4
  · -- u8 / two
    exact absurd h.1.symm hcyu
  · -- u8 / u4
    have hxlim := char_toNat_lt x
    obtain ⟨hnm, _⟩ := hex4_append_inj (by omega) hylt h
    rcases char_not_surrogate y with hs | hs <;> omega
  · -- u8 / u8
    have hxlim := char_toNat_lt x
    have hylim := char_toNat_lt y
    obtain ⟨hhi, hrest⟩ := hex4_append_inj (n := 55296 + (x.toNat - 65536) / 1024)
      (m := 55296 + (y.toNat - 65536) / 1024) (by omega) (by omega) h
    simp only [List.cons.injEq, true_and] at hrest
    obtain ⟨hlo, hab⟩ := hex4_append_inj (n := 56320 + (x.toNat - 65536) % 1024)
      (m := 56320 + (y.toNat - 65536) % 1024) (by omega) (by omega) hrest
    exact ⟨char_eq_of_toNat (by omega), hab⟩

theorem escChar_ne_nil (x : Char) : escChar x ≠ [] := by
  rcases escChar_cases x with ⟨hx, _⟩ | ⟨cx, hx, _⟩ | ⟨hx, _⟩ | ⟨hx, _⟩ <;> simp [hx]

theorem escList_inj : ∀ {a b : List Char}, escList a = escList b → a = b := by
  intro a
  induction a with
  | nil =>
    intro b h
    cases b with
    | nil => rfl
    | cons y ys =>
      exfalso
      rw [escList, escList] at h
      exact escChar_ne_nil y (List.append_eq_nil.mp h.symm).1
  | cons x xs ih =>
    intro b h
    cases b with
    | nil =>
      exfalso
      rw [escList, escList] at h
      exact escChar_ne_nil x (List.append_eq_nil.mp h).1
    | cons y ys =>
      rw [escList, escList] at h
      obtain ⟨hxy, hrest⟩ := escChar_append_inj h
      rw [hxy, ih hrest]

theorem signing_bytes_layout (dom c : String) (d : Json) :
    SignedMessage.get_signing_bytes dom c d =
      "\x7b\"chain_id\":\"".data ++ (escList c.data ++ ("\",\"data\":".data ++
        (encJson d ++ (",\"domain\":\"".data ++ (escList dom.data ++ "\"\x7d".data))))) := by
  simp [SignedMessage.get_signing_bytes, encJson, encFields, jfields, sortFields,
    insertField, strLt, charsLt, joinComma, quoteStr, escList, escChar, String.data,
    List.append_assoc]

/-- C9 (confirmed): a signature produced over the envelope `{TX, c, d}` does
not verify as `{VOTE, c, d}` nor as `{TX, c2, d}` for `c2 ≠ c`, because the
canonical signing bytes of envelopes differing in domain or chain_id are
distinct character strings. -/
theorem C9_domain_separation :
    ∀ (kp : KeyPair) (c c2 : String) (d : Json) (pubkey : String), c ≠ c2 →
      (SignedMessageS.mk "VOTE" c d
        ((SignedMessageS.mk "TX" c d none).sign kp).signature).verify pubkey = false ∧
      (SignedMessageS.mk "TX" c2 d
        ((SignedMessageS.mk "TX" c d none).sign kp).signature).verify pubkey = false ∧
      SignedMessage.get_signing_bytes "TX" c d ≠
        SignedMessage.get_signing_bytes "VOTE" c d ∧
      SignedMessage.get_signing_bytes "TX" c d ≠
        SignedMessage.get_signing_bytes "TX" c2 d := by
  intro kp c c2 d pubkey hne
  have hdom : SignedMessage.get_signing_bytes "TX" c d ≠
      SignedMessage.get_signing_bytes "VOTE" c d := by
    intro heq
    rw [signing_bytes_layout, signing_bytes_layout] at heq
    have h1 := List.append_cancel_left heq
    have h2 := List.append_cancel_left h1
    have h3 := List.append_cancel_left h2
    have h4 := List.append_cancel_left h3
    have h5 := List.append_cancel_left h4
    exact absurd h5 (by decide)
  have hchain : SignedMessage.get_signing_bytes "TX" c d ≠
      SignedMessage.get_signing_bytes "TX" c2 d := by
    intro heq
    rw [signing_bytes_layout, signing_bytes_layout] at heq
    have h1 := List.append_cancel_left heq
    have h2 := List.append_cancel_right h1
    exact hne (string_ext (escList_inj h2))
  refine ⟨?_, ?_, hdom, hchain⟩
  · simp only [SignedMessageS.verify, SignedMessageS.sign, KeyPair.sign, KeyPair.verifySig,
      decide_eq_false_iff_not]
    rintro ⟨-, hh⟩
    exact hdom hh
  · simp only [SignedMessageS.verify, SignedMessageS.sign, KeyPair.sign, KeyPair.verifySig,
      decide_eq_false_iff_not]
    rintro ⟨-, hh⟩
    exact hchain hh

/-- C9 witness: domain separation at a concrete keypair, chain ids and data. -/
theorem C9_domain_separation_witness :
    (SignedMessageS.mk "VOTE" "a" Json.null
      ((SignedMessageS.mk "TX" "a" Json.null none).sign ⟨"k"⟩).signature).verify "k" = false ∧
    (SignedMessageS.mk "TX" "b" Json.null
      ((SignedMessageS.mk "TX" "a" Json.null none).sign ⟨"k"⟩).signature).verify "k" = false ∧
    SignedMessage.get_signing_bytes "TX" "a" Json.null ≠
      SignedMessage.get_signing_bytes "VOTE" "a" Json.null ∧
    SignedMessage.get_signing_bytes "TX" "a" Json.null ≠
      SignedMessage.get_signing_bytes "TX" "b" Json.null :=
  C9_domain_separation ⟨"k"⟩ "a" "b" Json.null "k" (by decide)
